import Mathlib

/-!
Shallow embedding of the configuration store in src/config.rs.

The store wraps a tree of `json::JsonValue` nodes and exposes typed
`get`/`set`/`delete` keyed by dotted paths, plus `load`/`save` persistence.
The embedding below translates the Rust code (and the semantics of the
`json` crate operations it calls: `Index<&str>`, `IndexMut<&str>`,
`Object::insert`, `JsonValue::remove`) into pure Lean functions.  File I/O
and the external JSON parser are abstracted as explicit parameters, and the
two `unwrap` panic sites in path resolution are modelled by `Option`
(`none` = panic), with totality proved separately.
-/

/-- Document node: mirror of `json::JsonValue`.  `short` and `str` are the
two string representations of the crate (small-string optimisation); the
config code treats them identically on read and only ever writes `str`.
The `number` payload is the f64 bit pattern, carried opaquely: the `Number`
↔ `f64` conversions of the `json` crate are shortest-decimal and lossless,
so they are modelled as the identity on the bits. -/
inductive Json where
  | null : Json
  | short (s : String) : Json
  | str (s : String) : Json
  | number (bits : Nat) : Json
  | boolean (b : Bool) : Json
  | object (members : List (String × Json)) : Json
  | array (elems : List Json) : Json

/-- Typed boundary type: mirror of `Value` in src/config.rs.  Bytes carry
`u8` values, modelled as `Nat` (well-formed byte lists are < 256). -/
inductive Value where
  | string (s : String) : Value
  | number (bits : Nat) : Value
  | bool (b : Bool) : Value
  | bytes (bs : List Nat) : Value
  | null : Value
deriving DecidableEq

/-- First value stored under a key, mirror of `json::object::Object::get`
(keys inside an `Object` are unique, insertion keeps them unique). -/
def objGet : List (String × Json) → String → Option Json
  | [], _ => none
  | (k, v) :: rest, key => if k = key then some v else objGet rest key

/-- Effect of `IndexMut` on an `Object` followed by mutating the
returned slot with `f`: an absent key is first inserted holding `Null`
(appended at the end, as `Object::insert` does), a present key keeps its
position; the slot then becomes `f old`. -/
def objInsertWith : List (String × Json) → String → (Json → Json) → List (String × Json)
  | [], key, f => [(key, f Json.null)]
  | (k, v) :: rest, key, f =>
    if k = key then (k, f v) :: rest else (k, v) :: objInsertWith rest key f

/-- Mirror of `json::object::Object::remove`: drop the entry for `key`
(first occurrence; keys are unique), keep the others in order. -/
def objRemove : List (String × Json) → String → List (String × Json)
  | [], _ => []
  | (k, v) :: rest, key => if k = key then rest else (k, v) :: objRemove rest key

/-- Mirror of `impl Index<&str> for JsonValue`: on an object, the member or
`Null` when absent; on any non-object node, `Null`. -/
def jIndex (node : Json) (name : String) : Json :=
  match node with
  | Json.object m => (objGet m name).getD Json.null
  | _ => Json.null

/-- Effect of `node[name]` via `impl IndexMut<&str> for JsonValue` followed
by mutating the returned slot with `f`: a non-object node is replaced by a
fresh empty object first, then the object case applies. -/
def modifyIdx (node : Json) (name : String) (f : Json → Json) : Json :=
  match node with
  | Json.object m => Json.object (objInsertWith m name f)
  | _ => Json.object [(name, f Json.null)]

/-- Mirror of `JsonValue::remove(key)`: removes the member on an object,
leaves any non-object node unchanged. -/
def jRemove (node : Json) (key : String) : Json :=
  match node with
  | Json.object m => Json.object (objRemove m key)
  | _ => node

/-- Mirror of `JsonValue::is_object`. -/
def Json.isObject : Json → Bool
  | Json.object _ => true
  | _ => false

/-- Rust `split` at the dot separator, on the characters of the key: always
yields at least one (possibly empty) segment; the empty key splits to one
empty segment, a key with adjacent dots gets empty segments between them.
The separator is ASCII, so the byte-level Rust split coincides with this
character-level one. -/
def splitDot : List Char → List (List Char)
  | [] => [[]]
  | c :: rest =>
    if c = '.' then [] :: splitDot rest
    else
      match splitDot rest with
      | [] => [[c]]
      | w :: ws => (c :: w) :: ws

/-- Dotted-path segmentation of a key, as `String` segments. -/
def splitDotStr (s : String) : List String :=
  (splitDot s.data).map (fun w => String.mk w)

/-- Mirror of `JsonConfig::_lookup` on a key list split as head/tail (i.e.
after the head/tail decomposition that the nonempty split at every call
site makes safe; the raw panicking form is `lookupAux` below). -/
def jLookupNE (node : Json) (name : String) (rest : List String) : Json :=
  match rest with
  | [] => jIndex node name
  | n2 :: rs => jLookupNE (jIndex node name) n2 rs

/-- Mirror of `JsonConfig::_lookup_parent` combined with an action `g`
performed on the parent node it returns: descending with `IndexMut`
semantics (vivifying as `modifyIdx` does) and applying `g` at the parent of
the final segment. -/
def parentModify (node : Json) (name : String) (rest : List String) (g : Json → Json) : Json :=
  match rest with
  | [] => g node
  | n2 :: rs => modifyIdx node name (fun child => parentModify child n2 rs g)

/-- Standard base64 alphabet, index to character (crate `base64`, default
configuration: standard alphabet, padded). -/
def b64Char (n : Nat) : Char :=
  if n < 26 then Char.ofNat (65 + n)
  else if n < 52 then Char.ofNat (97 + (n - 26))
  else if n < 62 then Char.ofNat (48 + (n - 52))
  else if n = 62 then '+'
  else '/'

/-- Standard base64 alphabet, character to index (`none` for characters
outside the alphabet, including the pad character). -/
def b64CharVal (c : Char) : Option Nat :=
  if 65 ≤ c.toNat ∧ c.toNat ≤ 90 then some (c.toNat - 65)
  else if 97 ≤ c.toNat ∧ c.toNat ≤ 122 then some (c.toNat - 97 + 26)
  else if 48 ≤ c.toNat ∧ c.toNat ≤ 57 then some (c.toNat - 48 + 52)
  else if c = '+' then some 62
  else if c = '/' then some 63
  else none

/-- `base64::encode`: bytes to padded standard base64 characters. -/
def b64encodeChars : List Nat → List Char
  | [] => []
  | [a] => [b64Char (a / 4), b64Char (a % 4 * 16), '=', '=']
  | [a, b] => [b64Char (a / 4), b64Char (a % 4 * 16 + b / 16), b64Char (b % 16 * 4), '=']
  | a :: b :: c :: rest =>
    b64Char (a / 4) :: b64Char (a % 4 * 16 + b / 16) :: b64Char (b % 16 * 4 + c / 64)
      :: b64Char (c % 64) :: b64encodeChars rest

/-- Final 4-character block of a base64 decode, handling the padded forms
(`xx==` for one byte, `xxx=` for two, no pad for three). -/
def b64decodeLast (c0 c1 c2 c3 : Char) : Option (List Nat) :=
  if c2 = '=' then
    if c3 = '=' then do
      let s0 ← b64CharVal c0
      let s1 ← b64CharVal c1
      pure [s0 * 4 + s1 / 16]
    else none
  else if c3 = '=' then do
    let s0 ← b64CharVal c0
    let s1 ← b64CharVal c1
    let s2 ← b64CharVal c2
    pure [s0 * 4 + s1 / 16, s1 % 16 * 16 + s2 / 4]
  else do
    let s0 ← b64CharVal c0
    let s1 ← b64CharVal c1
    let s2 ← b64CharVal c2
    let s3 ← b64CharVal c3
    pure [s0 * 4 + s1 / 16, s1 % 16 * 16 + s2 / 4, s2 % 4 * 64 + s3]

/-- `base64::decode`: standard base64 characters to bytes.  The final
block may be padded (`xx==`, `xxx=`) or left unpadded as a 2- or
3-character remainder — every release of the `base64` crate before 0.20
(the only versions this codebase could pin) is padding-lenient and decodes
e.g. `AAA` to two zero bytes.  Decoding fails on characters outside the
alphabet, misplaced padding, or a leftover length of one. -/
def b64decodeChars : List Char → Option (List Nat)
  | [] => some []
  | [c0, c1] => do
    let s0 ← b64CharVal c0
    let s1 ← b64CharVal c1
    pure [s0 * 4 + s1 / 16]
  | [c0, c1, c2] => do
    let s0 ← b64CharVal c0
    let s1 ← b64CharVal c1
    let s2 ← b64CharVal c2
    pure [s0 * 4 + s1 / 16, s1 % 16 * 16 + s2 / 4]
  | [c0, c1, c2, c3] => b64decodeLast c0 c1 c2 c3
  | c0 :: c1 :: c2 :: c3 :: c4 :: rest => do
    let s0 ← b64CharVal c0
    let s1 ← b64CharVal c1
    let s2 ← b64CharVal c2
    let s3 ← b64CharVal c3
    let tail ← b64decodeChars (c4 :: rest)
    pure ((s0 * 4 + s1 / 16) :: (s1 % 16 * 16 + s2 / 4) :: (s2 % 4 * 64 + s3) :: tail)
  | _ => none

/-- The tag marker `BASE64_PREFIX` in src/config.rs. -/
def b64Marker : String := "base64:"

/-- Mirror of `JsonConfig::str_to_value`: a stored string starting with the
7-byte marker whose remainder decodes as base64 reads back as `Bytes`;
otherwise the string itself.  The marker is ASCII, so the byte-level Rust
slice at index 7 coincides with the character-level form used here. -/
def str_to_value (x : String) : Value :=
  if x.data.take 7 = b64Marker.data then
    match b64decodeChars (x.data.drop 7) with
    | some bs => Value.bytes bs
    | none => Value.string x
  else Value.string x

/-- Leaf-to-Value conversion arm of the match in `JsonConfig::get`. -/
def valueOfNode (node : Json) : Option Value :=
  match node with
  | Json.short s => some (str_to_value s)
  | Json.str s => some (str_to_value s)
  | Json.number x => some (Value.number x)
  | Json.boolean b => some (Value.bool b)
  | _ => none

/-- Value-to-leaf conversion in `JsonConfig::set`: bytes are stored as a
string carrying the marker followed by their base64 encoding. -/
def jsonOfValue : Value → Json
  | Value.string s => Json.str s
  | Value.number x => Json.number x
  | Value.bool b => Json.boolean b
  | Value.bytes bs => Json.str (String.mk (b64Marker.data ++ b64encodeChars bs))
  | Value.null => Json.null

/-- Mirror of `JsonConfig::lookup`: split the key and descend read-only.
The `[]` arm is the `split_first().unwrap()` panic site; it is unreachable
because `splitDot` never returns an empty list (see `path_resolution_total`). -/
def lookupModel (data : Json) (key : String) : Json :=
  match splitDotStr key with
  | [] => Json.null
  | name :: rest => jLookupNE data name rest

/-- Mirror of `JsonConfig::get` (`Config::get` impl). -/
def getModel (data : Json) (key : String) : Option Value :=
  valueOfNode (lookupModel data key)

/-- Mirror of the tree mutation performed by `JsonConfig::set` (the
`lookup_mut` descent plus assignment of the converted leaf); the
auto-save step is modelled separately in `setOp`.  The `[]` arm is the
unreachable unwrap-panic case. -/
def setModel (data : Json) (key : String) (v : Value) : Json :=
  match splitDotStr key with
  | [] => data
  | name :: rest =>
    parentModify data name rest
      (fun parent => modifyIdx parent (rest.getLastD name) (fun _ => jsonOfValue v))

/-- Mirror of the tree mutation performed by `JsonConfig::delete`:
`_lookup_parent` descent (vivifying like `set`) then `remove` of the last
segment on the parent.  The `[]` arm is the unreachable unwrap-panic case. -/
def deleteModel (data : Json) (key : String) : Json :=
  match splitDotStr key with
  | [] => data
  | name :: rest =>
    parentModify data name rest (fun parent => jRemove parent (rest.getLastD name))

/-- Side condition under which a `Value` survives the store round trip
unchanged: strings must not be re-read as tagged bytes by `str_to_value`,
byte lists must hold well-formed `u8` values, and `Null` is excluded (a
stored null reads back as `None`, see the C1 counterexample). -/
def roundTrippable : Value → Prop
  | Value.string s => str_to_value s = Value.string s
  | Value.number _ => True
  | Value.bool _ => True
  | Value.bytes bs => ∀ x ∈ bs, x < 256
  | Value.null => False

/-- Nodes that the match in `JsonConfig::get` converts to a `Value`; every
other node (null, object, array) falls to the `None` arm. -/
def scalarLeaf : Json → Bool
  | Json.short _ => true
  | Json.str _ => true
  | Json.number _ => true
  | Json.boolean _ => true
  | _ => false

/-- Raw transcription of `JsonConfig::_lookup` over an arbitrary key list:
the `[]` arm is the `split_first().unwrap()` panic, modelled as `none`. -/
def lookupAux : Json → List String → Option Json
  | _, [] => none
  | node, name :: rest =>
    if rest.isEmpty then some (jIndex node name)
    else lookupAux (jIndex node name) rest

/-- `modifyIdx` with a fallible continuation, used to thread the modelled
panic of a nested descent through the `IndexMut` vivification. -/
def modifyIdxO (node : Json) (name : String) (f : Json → Option Json) : Option Json :=
  match node with
  | Json.object m =>
    (f ((objGet m name).getD Json.null)).map
      (fun c => Json.object (objInsertWith m name (fun _ => c)))
  | _ => (f Json.null).map (fun c => Json.object [(name, c)])

/-- Raw transcription of `JsonConfig::_lookup_parent` over an arbitrary key
list, composed with a fallible action `g` on the parent node it reaches:
the `[]` arm is the `split_first().unwrap()` panic, modelled as `none`. -/
def parentAux (g : Json → Option Json) : Json → List String → Option Json
  | _, [] => none
  | node, name :: rest =>
    if rest.isEmpty then g node
    else modifyIdxO node name (fun child => parentAux g child rest)

/-- Raw transcription of the tree mutation of `set` (`lookup_mut` plus
assignment) over an arbitrary key list: the `getLast?` guard is the
`keys.last().unwrap()` panic site. -/
def setAux (data : Json) (keys : List String) (v : Json) : Option Json :=
  match keys.getLast? with
  | none => none
  | some lastK =>
    parentAux (fun parent => some (modifyIdx parent lastK (fun _ => v))) data keys

/-- Raw transcription of the tree mutation of `delete` over an arbitrary
key list: the `getLast?` guard is the `keys.last().unwrap()` panic site. -/
def deleteAux (data : Json) (keys : List String) : Option Json :=
  match keys.getLast? with
  | none => none
  | some lastK => parentAux (fun parent => some (jRemove parent lastK)) data keys

/-- Store state: the `auto_save` flag and the owned document tree.  The
backing file path only matters to the file system, which is abstracted as
explicit parameters of `setOp` and `loadOp`. -/
structure JsonConfig where
  auto_save : Bool
  data : Json

/-- Mirror of `Config::set` for `JsonConfig` including the auto-save step:
`saveResult` stands for the outcome of `self.save()` (the file write).
When auto-save is on and the write fails, `save().unwrap()` aborts the call
(a panic); the abort is modelled as the `Except.error` outcome, so the
failure reaches the caller and is never swallowed. -/
def setOp (cfg : JsonConfig) (key : String) (v : Value) (saveResult : Except Nat Unit) :
    Except Nat JsonConfig :=
  let cfg2 : JsonConfig := { auto_save := cfg.auto_save, data := setModel cfg.data key v }
  if cfg.auto_save then
    match saveResult with
    | Except.ok _ => Except.ok cfg2
    | Except.error e => Except.error e
  else Except.ok cfg2

/-- Error type of the external `json` parser: `wrongType` mirrors
`json::Error::WrongType` (the synthetic load error carries it); every other
parse failure is abstracted by a numeric code. -/
inductive JsonError where
  | wrongType (msg : String) : JsonError
  | other (code : Nat) : JsonError
deriving DecidableEq

/-- Mirror of `JsonConfigError`: a parse failure or an I/O failure
(abstracted as a numeric code). -/
inductive JsonConfigError where
  | parse (e : JsonError) : JsonConfigError
  | ioErr (e : Nat) : JsonConfigError
deriving DecidableEq

/-- Outcome of reading the backing file fully into memory: absent file,
other I/O failure, or the text it holds. -/
inductive ReadResult where
  | notFound : ReadResult
  | ioFailure (e : Nat) : ReadResult
  | content (s : String) : ReadResult

/-- Mirror of `JsonConfig::load`, with the file read and the external
parser abstracted: returns the result of the call paired with the
in-memory tree afterwards (the tree is replaced only on a successful parse
of a top-level object; `notFound` succeeds and keeps the tree). -/
def loadOp (data : Json) (file : ReadResult) (parse : String → Except JsonError Json) :
    Except JsonConfigError Unit × Json :=
  match file with
  | ReadResult.notFound => (Except.ok (), data)
  | ReadResult.ioFailure e => (Except.error (JsonConfigError.ioErr e), data)
  | ReadResult.content s =>
    match parse s with
    | Except.error e => (Except.error (JsonConfigError.parse e), data)
    | Except.ok v =>
      if v.isObject then (Except.ok (), v)
      else (Except.error (JsonConfigError.parse (JsonError.wrongType "not object")), data)

/-- Alphabet table check: decoding inverts encoding on every sextet, and no
alphabet character collides with the pad character. -/
theorem b64_table : ∀ s : Fin 64,
    b64CharVal (b64Char s.val) = some s.val ∧ b64Char s.val ≠ '=' := by
  decide

theorem b64CharVal_b64Char (s : Nat) (h : s < 64) : b64CharVal (b64Char s) = some s :=
  (b64_table ⟨s, h⟩).1

theorem b64Char_ne_pad (s : Nat) (h : s < 64) : b64Char s ≠ '=' :=
  (b64_table ⟨s, h⟩).2

/-- The encoding of a nonempty byte list always opens with a full
4-character block. -/
theorem encode_shape (r : Nat) (rs : List Nat) :
    ∃ x0 x1 x2 x3 t, b64encodeChars (r :: rs) = x0 :: x1 :: x2 :: x3 :: t := by
  match rs with
  | [] => exact ⟨_, _, _, _, _, rfl⟩
  | [b] => exact ⟨_, _, _, _, _, rfl⟩
  | b :: c :: rest => exact ⟨_, _, _, _, _, rfl⟩

/-- Base64 round trip: decoding the padded encoding of any well-formed byte
list recovers it exactly. -/
theorem b64_decode_encode : ∀ (bs : List Nat), (∀ x ∈ bs, x < 256) →
    b64decodeChars (b64encodeChars bs) = some bs
  | [], _ => rfl
  | [a], h => by
    have ha : a < 256 := h a (by simp)
    simp [b64encodeChars, b64decodeChars, b64decodeLast,
      b64CharVal_b64Char (a / 4) (by omega), b64CharVal_b64Char (a % 4 * 16) (by omega)]
    omega
  | [a, b], h => by
    have ha : a < 256 := h a (by simp)
    have hb : b < 256 := h b (by simp)
    have hpad := b64Char_ne_pad (b % 16 * 4) (by omega)
    simp [b64encodeChars, b64decodeChars, b64decodeLast, hpad,
      b64CharVal_b64Char (a / 4) (by omega),
      b64CharVal_b64Char (a % 4 * 16 + b / 16) (by omega),
      b64CharVal_b64Char (b % 16 * 4) (by omega)]
    omega
  | a :: b :: c :: rest, h => by
    have ha : a < 256 := h a (by simp)
    have hb : b < 256 := h b (by simp)
    have hc : c < 256 := h c (by simp)
    have ih := b64_decode_encode rest (fun x hx => h x (by simp [hx]))
    match rest with
    | [] =>
      have hp2 := b64Char_ne_pad (b % 16 * 4 + c / 64) (by omega)
      have hp3 := b64Char_ne_pad (c % 64) (by omega)
      simp [b64encodeChars, b64decodeChars, b64decodeLast, hp2, hp3,
        b64CharVal_b64Char (a / 4) (by omega),
        b64CharVal_b64Char (a % 4 * 16 + b / 16) (by omega),
        b64CharVal_b64Char (b % 16 * 4 + c / 64) (by omega),
        b64CharVal_b64Char (c % 64) (by omega)]
      refine ⟨by omega, by omega, by omega⟩
    | r :: rs =>
      obtain ⟨x0, x1, x2, x3, t, hshape⟩ := encode_shape r rs
      rw [show b64encodeChars (a :: b :: c :: r :: rs)
          = b64Char (a / 4) :: b64Char (a % 4 * 16 + b / 16)
            :: b64Char (b % 16 * 4 + c / 64) :: b64Char (c % 64)
            :: b64encodeChars (r :: rs) from rfl, hshape]
      simp only [b64decodeChars,
        b64CharVal_b64Char (a / 4) (by omega),
        b64CharVal_b64Char (a % 4 * 16 + b / 16) (by omega),
        b64CharVal_b64Char (b % 16 * 4 + c / 64) (by omega),
        b64CharVal_b64Char (c % 64) (by omega),
        Option.bind_eq_bind, Option.some_bind]
      rw [← hshape, ih]
      simp only [Option.some_bind]
      refine congrArg some ?_
      refine List.cons_eq_cons.mpr ⟨by omega, ?_⟩
      refine List.cons_eq_cons.mpr ⟨by omega, ?_⟩
      refine List.cons_eq_cons.mpr ⟨by omega, rfl⟩

/-- Reading back the key just written through `objInsertWith` yields the
transformed slot. -/
theorem objGet_insertWith (m : List (String × Json)) (k : String) (f : Json → Json) :
    objGet (objInsertWith m k f) k = some (f ((objGet m k).getD Json.null)) := by
  induction m with
  | nil => simp [objInsertWith, objGet]
  | cons p rest ih =>
    obtain ⟨k2, v⟩ := p
    by_cases hk : k2 = k
    · simp [objInsertWith, objGet, hk]
    · simp [objInsertWith, objGet, hk, ih]

/-- Reading the slot just modified through `IndexMut` semantics yields the
transformed child. -/
theorem jIndex_modifyIdx (node : Json) (name : String) (f : Json → Json) :
    jIndex (modifyIdx node name f) name = f (jIndex node name) := by
  cases node <;> simp [modifyIdx, jIndex, objGet, objGet_insertWith]

/-- Splitting a character list at dots never yields an empty segment list. -/
theorem splitDot_ne_nil (l : List Char) : splitDot l ≠ [] := by
  cases l with
  | nil => simp [splitDot]
  | cons c rest =>
    simp only [splitDot]
    split
    · simp
    · split <;> simp

/-- Splitting a key never yields an empty segment list. -/
theorem splitDotStr_ne_nil (s : String) : splitDotStr s ≠ [] := by
  simp [splitDotStr, splitDot_ne_nil]

/-- Looking a path up immediately after writing a leaf along the same path
finds that leaf. -/
theorem jLookupNE_set (v : Json) : ∀ (rest : List String) (name lastK : String) (node : Json),
    lastK = rest.getLastD name →
    jLookupNE
      (parentModify node name rest (fun parent => modifyIdx parent lastK (fun _ => v)))
      name rest = v
  | [], name, lastK, node, hlast => by
    subst hlast
    simp [parentModify, jLookupNE, List.getLastD, jIndex_modifyIdx]
  | n2 :: rs, name, lastK, node, hlast => by
    have ih := jLookupNE_set v rs n2 lastK (jIndex node name)
      (by rw [hlast, List.getLastD_cons])
    simp only [parentModify, jLookupNE, jIndex_modifyIdx]
    exact ih

theorem take7_marker (t : List Char) : List.take 7 ("base64:".data ++ t) = "base64:".data := rfl

theorem drop7_marker (t : List Char) : List.drop 7 ("base64:".data ++ t) = t := rfl

/-- Converting a round-trippable `Value` to a leaf and back is the
identity (up to the `some` of a successful read). -/
theorem valueOfNode_jsonOfValue (v : Value) (hv : roundTrippable v) :
    valueOfNode (jsonOfValue v) = some v := by
  match v with
  | Value.string s =>
    simp only [jsonOfValue, valueOfNode, Option.some.injEq]
    exact hv
  | Value.number x => rfl
  | Value.bool b => rfl
  | Value.bytes bs =>
    have hdec : b64decodeChars (b64encodeChars bs) = some bs := b64_decode_encode bs hv
    have hcond : (String.mk (b64Marker.data ++ b64encodeChars bs)).data.take 7 = b64Marker.data :=
      take7_marker (b64encodeChars bs)
    have hdrop : (String.mk (b64Marker.data ++ b64encodeChars bs)).data.drop 7 = b64encodeChars bs :=
      drop7_marker (b64encodeChars bs)
    simp only [jsonOfValue, valueOfNode, str_to_value, hcond, hdrop, if_pos, hdec]
  | Value.null => exact absurd hv (by simp [roundTrippable])

/-- Removing an absent key leaves an object unchanged. -/
theorem objRemove_absent (m : List (String × Json)) (k : String) (h : objGet m k = none) :
    objRemove m k = m := by
  induction m with
  | nil => rfl
  | cons p rest ih =>
    obtain ⟨k2, v⟩ := p
    by_cases hk : k2 = k
    · simp [objGet, hk] at h
    · simp only [objGet, if_neg hk] at h
      simp [objRemove, hk, ih h]

/-- A dot-free character list splits into the single segment it is. -/
theorem splitDot_no_dot (l : List Char) (h : '.' ∉ l) : splitDot l = [l] := by
  induction l with
  | nil => rfl
  | cons c rest ih =>
    simp only [List.mem_cons, not_or] at h
    rw [splitDot, if_neg (fun hc => h.1 hc.symm), ih h.2]

theorem modifyIdxO_isSome (node : Json) (name : String) (f : Json → Option Json)
    (hf : ∀ x, (f x).isSome = true) : (modifyIdxO node name f).isSome = true := by
  cases node <;> simp [modifyIdxO, Option.isSome_map', hf]

theorem lookupAux_isSome : ∀ (rest : List String) (name : String) (node : Json),
    (lookupAux node (name :: rest)).isSome = true
  | [], _, _ => rfl
  | n2 :: rs, name, node => by
    simpa [lookupAux] using lookupAux_isSome rs n2 (jIndex node name)

theorem parentAux_isSome (g : Json → Option Json) (hg : ∀ node, (g node).isSome = true) :
    ∀ (rest : List String) (name : String) (node : Json),
    (parentAux g node (name :: rest)).isSome = true
  | [], name, node => by simpa [parentAux] using hg node
  | n2 :: rs, name, node => by
    have ih : ∀ child : Json, (parentAux g child (n2 :: rs)).isSome = true :=
      fun child => parentAux_isSome g hg rs n2 child
    show (modifyIdxO node name (fun child => parentAux g child (n2 :: rs))).isSome = true
    exact modifyIdxO_isSome node name _ ih

theorem getLast_of_cons (name : String) (rest : List String) :
    (name :: rest).getLast? = some (rest.getLastD name) := by
  induction rest generalizing name with
  | nil => rfl
  | cons n2 rs ih => rw [List.getLastD_cons, ← ih n2]; rfl

/-- C1 counterexample: the round trip fails for the `Null` variant at a
concrete input — after `set("flag", Null)` on an empty store, `get("flag")`
returns `None`, not `Some(Null)`, because the match in `get` sends a stored
null to its catch-all `None` arm. -/
theorem set_get_null_counterexample :
    getModel (setModel (Json.object []) "flag" Value.null) "flag" ≠ some Value.null := by
  decide

/-- C1 (amended): for every path and every value of the String, Number,
Bool, and Bytes variants, `set(p, v)` followed by `get(p)` on the same
store returns `Some(v)` — provided the string is not re-read as tagged
bytes (it must not start with the base64 marker followed by decodable
base64) and the byte list holds well-formed `u8` values; a `Null` write
reads back as `None` instead. -/
theorem set_then_get (data : Json) (key : String) (v : Value) (hv : roundTrippable v) :
    getModel (setModel data key v) key = some v := by
  cases hsplit : splitDotStr key with
  | nil => exact absurd hsplit (splitDotStr_ne_nil key)
  | cons name rest =>
    simp only [getModel, lookupModel, setModel, hsplit]
    rw [jLookupNE_set (jsonOfValue v) rest name (rest.getLastD name) data rfl]
    exact valueOfNode_jsonOfValue v hv

/-- Witness for C1: the round trip at the concrete path `owner.name` and
the concrete string `hello`. -/
theorem set_then_get_witness :
    getModel (setModel (Json.object []) "owner.name" (Value.string "hello")) "owner.name"
      = some (Value.string "hello") :=
  set_then_get (Json.object []) "owner.name" (Value.string "hello")
    (by decide : str_to_value "hello" = Value.string "hello")

/-- C2 counterexample: deleting the never-set multi-segment path `a.b` on
an empty store does change the document tree — the `IndexMut` descent in
`_lookup_parent` inserts a null member at `a` before `remove` runs, so the
tree becomes an object holding `a ↦ null` instead of staying empty. -/
theorem delete_vivify_counterexample :
    deleteModel (Json.object []) "a.b" = Json.object [("a", Json.null)] ∧
    Json.object [("a", Json.null)] ≠ Json.object [] := ⟨rfl, by simp⟩

/-- C2 (amended): with auto-save disabled, deleting a never-set path raises
no error, and for single-segment paths (no dot in the key) the document
tree is left exactly unchanged; multi-segment paths may instead vivify
missing intermediate slots, as the counterexample shows. -/
theorem delete_absent_single (members : List (String × Json)) (k : String)
    (hk : '.' ∉ k.data) (habsent : objGet members k = none) :
    deleteModel (Json.object members) k = Json.object members := by
  have hsplit : splitDotStr k = [k] := by
    simp [splitDotStr, splitDot_no_dot k.data hk]
  simp only [deleteModel, hsplit, parentModify, List.getLastD, jRemove]
  rw [objRemove_absent members k habsent]

/-- Witness for C2: deleting the absent key `a` on a store holding only
`x` leaves the tree unchanged. -/
theorem delete_absent_single_witness :
    deleteModel (Json.object [("x", Json.boolean true)]) "a"
      = Json.object [("x", Json.boolean true)] :=
  delete_absent_single [("x", Json.boolean true)] "a" (by decide) rfl

/-- C3: with auto-save enabled, a failing persistence step makes the whole
`set` call fail with that failure — `save().unwrap()` aborts the call, so
the error reaches the caller and is never swallowed. -/
theorem save_failure_propagates (cfg : JsonConfig) (key : String) (v : Value) (e : Nat)
    (hauto : cfg.auto_save = true) :
    setOp cfg key v (Except.error e) = Except.error e := by
  simp [setOp, hauto]

/-- Witness for C3: a concrete failing save during an auto-saving `set`. -/
theorem save_failure_propagates_witness :
    setOp ⟨true, Json.object []⟩ "k" (Value.bool true) (Except.error 5) = Except.error 5 :=
  save_failure_propagates ⟨true, Json.object []⟩ "k" (Value.bool true) 5 rfl

/-- C4: there is a string that starts with the base64 marker, has a valid
base64 suffix, and after `set` comes back from `get` as `Bytes` rather
than the original `String` — witnessed by the concrete string
`base64:AAAA`, which reads back as three zero bytes. -/
theorem base64_collision_exists :
    ∃ s : String, s.data.take 7 = b64Marker.data ∧
      (∃ bs, b64decodeChars (s.data.drop 7) = some bs ∧
        getModel (setModel (Json.object []) "k" (Value.string s)) "k"
          = some (Value.bytes bs)) ∧
      getModel (setModel (Json.object []) "k" (Value.string s)) "k"
        ≠ some (Value.string s) := by
  refine ⟨"base64:AAAA", by decide, ⟨[0, 0, 0], by decide, by decide⟩, by decide⟩

/-- C5: reading a stored string leaf that starts with the base64 marker
yields `Bytes(decoded)` when the remainder decodes, and the full original
string (marker kept as literal text) when the remainder fails to decode. -/
theorem get_tagged_leaf (data : Json) (key : String) (s : String)
    (hleaf : lookupModel data key = Json.str s ∨ lookupModel data key = Json.short s)
    (hmark : s.data.take 7 = b64Marker.data) :
    (∀ bs, b64decodeChars (s.data.drop 7) = some bs →
      getModel data key = some (Value.bytes bs)) ∧
    (b64decodeChars (s.data.drop 7) = none →
      getModel data key = some (Value.string s)) := by
  constructor
  · intro bs hdec
    cases hleaf with
    | inl h => simp [getModel, h, valueOfNode, str_to_value, hmark, hdec]
    | inr h => simp [getModel, h, valueOfNode, str_to_value, hmark, hdec]
  · intro hdec
    cases hleaf with
    | inl h => simp [getModel, h, valueOfNode, str_to_value, hmark, hdec]
    | inr h => simp [getModel, h, valueOfNode, str_to_value, hmark, hdec]

/-- Witness for C5: a padded tagged leaf reads back as bytes, an unpadded
tagged leaf also reads back as bytes (the lenient decode), and a tagged
leaf with an undecodable remainder reads back as the literal string. -/
theorem get_tagged_leaf_witness :
    getModel (Json.object [("k", Json.str "base64:aGk=")]) "k"
      = some (Value.bytes [104, 105]) ∧
    getModel (Json.object [("u", Json.str "base64:AAA")]) "u"
      = some (Value.bytes [0, 0]) ∧
    getModel (Json.object [("j", Json.str "base64:!xyz")]) "j"
      = some (Value.string "base64:!xyz") :=
  ⟨(get_tagged_leaf (Json.object [("k", Json.str "base64:aGk=")]) "k" "base64:aGk="
      (Or.inl rfl) (by decide)).1 [104, 105] (by decide),
   (get_tagged_leaf (Json.object [("u", Json.str "base64:AAA")]) "u" "base64:AAA"
      (Or.inl rfl) (by decide)).1 [0, 0] (by decide),
   (get_tagged_leaf (Json.object [("j", Json.str "base64:!xyz")]) "j" "base64:!xyz"
      (Or.inl rfl) (by decide)).2 (by decide)⟩

/-- C6: `get` is a pure function of the tree (the embedding takes and
returns no mutable state, mirroring the shared borrow in the source) and
never fails — whenever the path resolves to a non-scalar node (absent
paths resolve to null, and null, object and array nodes are all
non-scalar), the result is `None`, never an error. -/
theorem get_nonleaf_none (data : Json) (key : String)
    (h : scalarLeaf (lookupModel data key) = false) :
    getModel data key = none := by
  unfold getModel
  cases hnode : lookupModel data key <;> simp_all [scalarLeaf, valueOfNode]

/-- Witness for C6: reading a never-written path on an empty store. -/
theorem get_nonleaf_none_witness :
    getModel (Json.object []) "missing" = none :=
  get_nonleaf_none (Json.object []) "missing" rfl

/-- C7: loading with a missing backing file succeeds and keeps the
in-memory tree, so a fresh store pointed at a nonexistent file is, after
`load`, the empty store a fresh construction gives. -/
theorem load_missing_file (data : Json) (parse : String → Except JsonError Json) :
    loadOp data ReadResult.notFound parse = (Except.ok (), data) ∧
    loadOp (Json.object []) ReadResult.notFound parse = (Except.ok (), Json.object []) :=
  ⟨rfl, rfl⟩

/-- C8: when the file exists but its text fails to parse, or parses to a
non-object top-level value, `load` returns a `Parse` error and the
in-memory tree is unchanged. -/
theorem load_parse_error (data : Json) (s : String)
    (parse : String → Except JsonError Json) :
    (∀ e, parse s = Except.error e →
      loadOp data (ReadResult.content s) parse
        = (Except.error (JsonConfigError.parse e), data)) ∧
    (∀ v, parse s = Except.ok v → Json.isObject v = false →
      loadOp data (ReadResult.content s) parse
        = (Except.error (JsonConfigError.parse (JsonError.wrongType "not object")), data)) := by
  constructor
  · intro e he
    simp [loadOp, he]
  · intro v hv hobj
    simp [loadOp, hv, hobj]

/-- Witness for C8: a concrete failing parse and a concrete non-object
parse both yield `Parse` errors and keep the empty tree. -/
theorem load_parse_error_witness :
    loadOp (Json.object []) (ReadResult.content "oops")
        (fun _ => Except.error (JsonError.other 0))
      = (Except.error (JsonConfigError.parse (JsonError.other 0)), Json.object []) ∧
    loadOp (Json.object []) (ReadResult.content "true")
        (fun _ => Except.ok (Json.boolean true))
      = (Except.error (JsonConfigError.parse (JsonError.wrongType "not object")),
         Json.object []) :=
  ⟨(load_parse_error (Json.object []) "oops" (fun _ => Except.error (JsonError.other 0))).1
      (JsonError.other 0) rfl,
   (load_parse_error (Json.object []) "true" (fun _ => Except.ok (Json.boolean true))).2
      (Json.boolean true) rfl rfl⟩

/-- C9: `set("a.b.c", Number(1.0))` on an empty store (1.0 has f64 bit
pattern 4607182418800017408) vivifies `a` and `a.b` as object nodes with
the number leaf at `a.b.c`, and `get("a.b")` afterwards is `None` because
it names an object, not a retrievable scalar. -/
theorem nested_vivification :
    setModel (Json.object []) "a.b.c" (Value.number 4607182418800017408)
      = Json.object [("a", Json.object [("b", Json.object [("c",
          Json.number 4607182418800017408)])])] ∧
    lookupModel (setModel (Json.object []) "a.b.c" (Value.number 4607182418800017408)) "a"
      = Json.object [("b", Json.object [("c", Json.number 4607182418800017408)])] ∧
    lookupModel (setModel (Json.object []) "a.b.c" (Value.number 4607182418800017408)) "a.b"
      = Json.object [("c", Json.number 4607182418800017408)] ∧
    getModel (setModel (Json.object []) "a.b.c" (Value.number 4607182418800017408)) "a.b"
      = none :=
  ⟨rfl, rfl, rfl, rfl⟩

/-- C10: path resolution never panics for any key and any tree — splitting
a key always yields at least one segment, so the transcriptions of
`_lookup`, `set` and `delete` with their `unwrap` sites modelled as
`Option` always return a value; and `get` of the empty key on a store
without an empty-string member simply returns `None`. -/
theorem path_resolution_total (data : Json) (key : String) (v : Json)
    (ms : List (String × Json)) (hms : objGet ms "" = none) :
    splitDotStr key ≠ [] ∧
    (lookupAux data (splitDotStr key)).isSome = true ∧
    (setAux data (splitDotStr key) v).isSome = true ∧
    (deleteAux data (splitDotStr key)).isSome = true ∧
    getModel (Json.object ms) "" = none := by
  refine ⟨splitDotStr_ne_nil key, ?_, ?_, ?_, ?_⟩
  · cases hsplit : splitDotStr key with
    | nil => exact absurd hsplit (splitDotStr_ne_nil key)
    | cons name rest => exact lookupAux_isSome rest name data
  · cases hsplit : splitDotStr key with
    | nil => exact absurd hsplit (splitDotStr_ne_nil key)
    | cons name rest =>
      rw [setAux, getLast_of_cons]
      exact parentAux_isSome
        (fun parent => some (modifyIdx parent (rest.getLastD name) (fun _ => v)))
        (fun _ => rfl) rest name data
  · cases hsplit : splitDotStr key with
    | nil => exact absurd hsplit (splitDotStr_ne_nil key)
    | cons name rest =>
      rw [deleteAux, getLast_of_cons]
      exact parentAux_isSome
        (fun parent => some (jRemove parent (rest.getLastD name)))
        (fun _ => rfl) rest name data
  · simp [getModel, lookupModel, splitDotStr, splitDot, jLookupNE, jIndex, hms, valueOfNode]

/-- Witness for C10: totality at the concrete key `a.b` with empty-segment
handling on the empty store. -/
theorem path_resolution_total_witness :
    splitDotStr "a.b" ≠ [] ∧
    (lookupAux (Json.object []) (splitDotStr "a.b")).isSome = true ∧
    (setAux (Json.object []) (splitDotStr "a.b") Json.null).isSome = true ∧
    (deleteAux (Json.object []) (splitDotStr "a.b")).isSome = true ∧
    getModel (Json.object []) "" = none :=
  path_resolution_total (Json.object []) "a.b" Json.null [] rfl
